import Mathlib

/-!
Verification of the windowed multitaper line-noise removal engine of the
IEEG_preprocessing repository (`PreProcess/filter.py` and `ieeg/mt_filter.py`).

The two Python files implement variants of the same pipeline, but they are
not equivalent: the `ieeg` file fills `WindowingRemover`'s constructor
positionally in the wrong order (mt_filter.py:143-144), its
threshold-recompute path accesses attributes that do not exist on the bound
`functools.cache` method (mt_filter.py:249-250), its removal report is
built per channel without per-chunk deduplication (mt_filter.py:225-233),
and its dispatcher drops the pick list (mt_filter.py:157).  Each divergence
is embedded separately next to the shared embedding.  All rational-valued
quantities of the code are embedded as `ℚ`. Library functions whose numeric
content is irrelevant to the verified properties (`scipy.stats.f.ppf`,
`np.cos`, `np.abs`/`np.angle` on complex numbers, the taper generator
`mt_params`/`multitaper.params` and the F-test core `sine_f_test`, whose
modules are not part of the sources here) are abstracted as parameters
gathered in `MTContext`.  Components whose defining module is absent from
the sources (`_COLA`/`COLA`, `proc_array`) are modelled from the spec and
carry a doc comment saying so.
-/

/-! ### A small model of NumPy dtype promotion

`line_filter` broadcasts a scalar notch width with
`notch_widths[0] * np.ones_like(freqs)` (filter.py:111, mt_filter.py:128).
To settle claims about the dtype of that product we model the two dtypes in
play.  NumPy semantics modelled here: `np.ones_like` keeps the dtype of its
argument; multiplying a `float64` scalar by an `int64` array promotes the
result to `float64` (value-based promotion, identical under NEP 50); values
cast to `int64` are truncated toward zero. -/

inductive DType where
  | int64 : DType
  | float64 : DType
deriving DecidableEq, Repr

/-- A one-dimensional NumPy array: a dtype together with the (exact
rational) element values. -/
structure NDArr where
  dtype : DType
  data : List ℚ
deriving DecidableEq, Repr

/-- NumPy dtype promotion between the two dtypes we model: `int64` only
when both operands are `int64`, otherwise `float64`. -/
def DType.promote : DType → DType → DType
  | DType.int64, DType.int64 => DType.int64
  | _, _ => DType.float64

/-- Truncation toward zero, the C cast NumPy applies when storing a float
value into an `int64` array. -/
def npTrunc (q : ℚ) : ℤ :=
  if 0 ≤ q then ⌊q⌋ else ⌈q⌉

/-- Storing a value under a dtype: exact for `float64`, truncated toward
zero for `int64`. -/
def DType.castVal : DType → ℚ → ℚ
  | DType.int64, q => (npTrunc q : ℚ)
  | DType.float64, q => q

/-- `np.ones_like`: an array of ones with the dtype of the argument. -/
def onesLike (a : NDArr) : NDArr :=
  ⟨a.dtype, a.data.map fun _ => 1⟩

/-- Multiplication of a scalar (with its own dtype) by an array, with NumPy
dtype promotion: the computation happens in the promoted dtype. -/
def scalarMul (s : ℚ) (sd : DType) (a : NDArr) : NDArr :=
  let d := sd.promote a.dtype
  ⟨d, a.data.map fun v => d.castVal (s * v)⟩

/-! ### Notch-width validation (filter.py:101-114, mt_filter.py:118-131)

The validation block of `line_filter`, run before any channel processing:
when `freqs` is given, a `None` width defaults to `freqs / 200.0`, any
negative width raises `ValueError`, a length-one width array is broadcast
with `notch_widths[0] * np.ones_like(freqs)`, and any other length not
equal to `len(freqs)` raises `ValueError`. -/

def checkNotchWidths (freqs : Option NDArr) (notchWidths : Option NDArr) :
    Except String (Option NDArr) :=
  match freqs with
  | none => Except.ok notchWidths
  | some fr =>
    match notchWidths with
    | none => Except.ok (some ⟨DType.float64, fr.data.map fun v => v / 200⟩)
    | some w =>
      if w.data.any fun v => decide (v < 0) then
        Except.error "notch_widths must be >= 0"
      else
        match w.data with
        | [w0] => Except.ok (some (scalarMul w0 w.dtype (onesLike fr)))
        | _ =>
          if w.data.length ≠ fr.data.length then
            Except.error
              "notch_widths must be None, scalar, or the same length as freqs"
          else Except.ok (some w)

/-! ### The multitaper context

Everything the chunk pipeline consumes.  The four numeric library functions
and the two repository modules absent from the sources are abstract
parameters; every verified statement holds for all of them. -/

/-- A rational stand-in for a complex number (amplitude estimates `A` are
complex in the code). -/
structure CQ where
  re : ℚ
  im : ℚ
deriving DecidableEq, Repr

/-- `2 * A[0, ind]` (filter.py:239, mt_filter.py:273). -/
def cTwo (a : CQ) : CQ := ⟨2 * a.re, 2 * a.im⟩

/-- Modelled from the spec: the Taper Bank (`mt_params` in
`PreProcess.utils.timefreq` / `multitaper.params` in `ieeg.timefreq`, whose
modules are not among the sources) returns, for a window length `n`, a
taper matrix of `K` rows each of length exactly `n`. -/
structure TaperBank where
  tapers : ℕ → List (List ℚ)
  shape : ∀ n t, t ∈ tapers n → t.length = n

/-- All the inputs of one filtering call that the chunk pipeline reads.
`ppf` models `scipy.stats.f.ppf` (quantile of the F-distribution, by
`(probability, dfn, dfd)`); `fStat` and `amp` model the outputs of
`sine_f_test` (module absent from the sources) per taper matrix, chunk and
frequency-bin index; `absC`, `angleC`, `cosF` model `np.abs`, `np.angle`
and `np.cos`; `twoPi` stands for the constant `2 * np.pi`. -/
structure MTContext where
  sfreq : ℚ
  pValue : ℚ
  bank : TaperBank
  ppf : ℚ → ℕ → ℕ → ℚ
  fStat : List (List ℚ) → List ℚ → ℕ → ℚ
  amp : List (List ℚ) → List ℚ → ℕ → CQ
  absC : CQ → ℚ
  angleC : CQ → ℚ
  cosF : ℚ → ℚ
  twoPi : ℚ

/-- `window_fun.shape[-1]`: the length of the rows of a taper matrix. -/
def wfLen (wf : List (List ℚ)) : ℕ := (wf.headD []).length

/-- `get_window_thresh` (filter.py:128-136): the taper matrix for `n_times`
samples together with the F-statistic significance cutoff
`scipy.stats.f.ppf(1 - p_value / n_times, 2, 2 * len(window_fun) - 2)`. -/
def getWindowThresh (C : MTContext) (nTimes : ℕ) : List (List ℚ) × ℚ :=
  let windowFun := C.bank.tapers nTimes
  (windowFun,
   C.ppf (1 - C.pValue / (nTimes : ℚ)) 2 (2 * windowFun.length - 2))

/-- The state stored by `WindowingRemover.__init__` (mt_filter.py:165-178):
one field per constructor parameter, assigned directly.  `pValue` and
`bandwidth` are `Option ℚ` because the caller-supplied `mt_bandwidth`
defaults to `None` and Python is untyped, so either slot can receive
`None`. -/
structure WRemover where
  sfreq : ℚ
  lineFreqs : Option (List ℚ)
  notchWidth : Option (List ℚ)
  pValue : Option ℚ
  filterLength : ℕ
  lowBias : Bool
  adaptive : Bool
  bandwidth : Option ℚ

/-- The constructor call of the `ieeg` `line_filter` (mt_filter.py:143-144):
`WindowingRemover(fs, freqs, notch_widths, filter_length, adaptive,
low_bias, p_value, mt_bandwidth)` fills the declared parameters `(sfreq,
line_freqs, notch_width, filter_length, low_bias, adaptive, bandwidth,
p_value)` positionally, so the 5th..8th slots receive the wrong caller
variables: `low_bias := adaptive`, `adaptive := low_bias`,
`bandwidth := p_value`, `p_value := mt_bandwidth`. -/
def mkWindowingRemover (fs : ℚ) (freqs notchWidths : Option (List ℚ))
    (filterLength : ℕ) (adaptive lowBias : Bool) (pValue : Option ℚ)
    (mtBandwidth : Option ℚ) : WRemover :=
  { sfreq := fs
    lineFreqs := freqs
    notchWidth := notchWidths
    filterLength := filterLength
    lowBias := adaptive
    adaptive := lowBias
    bandwidth := pValue
    pValue := mtBandwidth }

/-- `WindowingRemover.get_thresh` (mt_filter.py:180-195) evaluated on the
remover's stored state: the tapers for `n_times` (defaulting to the stored
filter length) and the cutoff `ppf(1 - self.p_value / n_times, 2, 2K - 2)`.
When the stored `p_value` is `None` — which is what `line_filter` stores
there under its default `mt_bandwidth=None` — the expression
`1 - self.p_value / n_times` raises `TypeError`, modelled as an error. -/
def wrGetThreshActual (C : MTContext) (R : WRemover) (nTimes : Option ℕ) :
    Except String (List (List ℚ) × ℚ) :=
  let n := match nTimes with
    | none => R.filterLength
    | some m => m
  let windowFun := C.bank.tapers n
  match R.pValue with
  | none => Except.error
      "TypeError: unsupported operand type for NoneType in 1 - p_value / n"
  | some pv =>
    Except.ok (windowFun,
      C.ppf (1 - pv / (n : ℚ)) 2 (2 * windowFun.length - 2))

/-- The taper/threshold pair the `PreProcess` `_mt_remove` actually uses
for a chunk of `n` samples: the defaults passed in, unless the chunk length
differs from the taper length, in which case both are recomputed for the
chunk's exact length (filter.py:216-217 — a plain closure call, so the
recompute succeeds there; the `ieeg` counterpart at mt_filter.py:248-250
instead raises and is embedded separately as `mtRemoveIeeg`). -/
def chunkWindowThresh (C : MTContext) (dflt : List (List ℚ) × ℚ) (n : ℕ) :
    List (List ℚ) × ℚ :=
  if n ≠ wfLen dflt.1 then getWindowThresh C n else dflt

/-! ### The chunk pipeline `_mt_remove`
(filter.py:206-249, mt_filter.py:238-283; the significance filter, the
sinusoid fits and the subtraction are character-identical in the two files;
the only divergence is the threshold-recompute line, mt_filter.py:249-250,
embedded separately below as `mtRemoveIeeg`) -/

/-- Modelled from the spec: the frequency axis returned by `mt_spectra` /
`multitaper.spectra` (modules absent from the sources) — `floor(n/2) + 1`
bins spanning `0` to `sfreq/2` with spacing `sfreq / n`. -/
def specFreqs (sfreq : ℚ) (n : ℕ) (i : ℕ) : ℚ := sfreq * (i : ℚ) / (n : ℚ)

/-- Modelled from the spec: the number of frequency bins of a one-sided
spectrum of an `n`-sample chunk. -/
def nBins (n : ℕ) : ℕ := n / 2 + 1

/-- `np.where(f_stat > threshold)[1]` (filter.py:223, mt_filter.py:256):
the bin indices whose F-statistic exceeds the threshold. -/
def sigIndices (threshold : ℚ) (fs : ℕ → ℚ) (n : ℕ) : List ℕ :=
  (List.range (nBins n)).filter fun i => decide (threshold < fs i)

/-- The per-target notch ranges `(freq - width/2, freq + width/2)`
(filter.py:230-231, mt_filter.py:264-265). -/
def mkRanges (lineFreqs notchWidths : List ℚ) : List (ℚ × ℚ) :=
  (lineFreqs.zip notchWidths).map fun p => (p.1 - p.2 / 2, p.1 + p.2 / 2)

/-- Membership of a frequency in at least one notch range
(filter.py:232-233, mt_filter.py:266-267). -/
def inRanges (ranges : List (ℚ × ℚ)) (f : ℚ) : Bool :=
  ranges.any fun r => decide (r.1 ≤ f) && decide (f ≤ r.2)

/-- The bin indices `_mt_remove` removes from a chunk: those above the
F-test threshold, further restricted — when both target frequencies and
notch widths are supplied — to bins whose frequency falls inside at least
one notch range (filter.py:222-233, mt_filter.py:255-267). -/
def removedIndices (C : MTContext) (lineFreqs notchWidths : Option (List ℚ))
    (wf : List (List ℚ)) (threshold : ℚ) (x : List ℚ) : List ℕ :=
  let inds := sigIndices threshold (C.fStat wf x) x.length
  match lineFreqs, notchWidths with
  | some lfs, some nws =>
    inds.filter fun i =>
      inRanges (mkRanges lfs nws) (specFreqs C.sfreq x.length i)
  | _, _ => inds

/-- The fitted sinusoid for bin `i` at sample `t` exactly as the code
builds it: `np.abs(c) * np.cos(freqs[ind] * rads + np.angle(c))` with
`c = 2 * A[0, ind]` and `rads = 2 * np.pi * (np.arange(x.size) / sfreq)`
(filter.py:237-240, mt_filter.py:271-274). -/
def fitAt (C : MTContext) (wf : List (List ℚ)) (x : List ℚ) (i t : ℕ) : ℚ :=
  let c := cTwo (C.amp wf x i)
  C.absC c *
    C.cosF (specFreqs C.sfreq x.length i * (C.twoPi * ((t : ℚ) / C.sfreq)) +
      C.angleC c)

/-- `_mt_remove` as executed by the `PreProcess` implementation
(filter.py:206-249; identical to mt_filter.py:238-283 except for the
recompute line): recompute the taper/threshold pair when the chunk length
differs from the taper length, find the significant bins, sum the fitted
sinusoids of those bins (`datafit = 0.0` when there are none) and subtract
the sum from the chunk; also return the removed frequencies. -/
def mtRemove (C : MTContext) (lineFreqs notchWidths : Option (List ℚ))
    (dflt : List (List ℚ) × ℚ) (x : List ℚ) : List ℚ × List ℚ :=
  let wt := chunkWindowThresh C dflt x.length
  let inds := removedIndices C lineFreqs notchWidths wt.1 wt.2 x
  let datafit : ℕ → ℚ := fun t =>
    if inds.isEmpty then 0
    else (inds.map fun i => fitAt C wt.1 x i t).sum
  (x.enum.map (fun p => p.2 - datafit p.1),
   inds.map (specFreqs C.sfreq x.length))

/-- `_mt_remove` as executed by the `ieeg` implementation: when the chunk
length differs from the taper length, mt_filter.py:249-250 evaluates
`get_thresh.func(x.shape[-1], *get_thresh.args[1:])`, but the bound
`functools.cache` method `self.get_thresh` has neither a `func` nor an
`args` attribute, so the call raises `AttributeError` instead of
recomputing; when the lengths match, the chunk is processed exactly as in
`mtRemove` (the rest of the function is character-identical). -/
def mtRemoveIeeg (C : MTContext) (lineFreqs notchWidths : Option (List ℚ))
    (dflt : List (List ℚ) × ℚ) (x : List ℚ) :
    Except String (List ℚ × List ℚ) :=
  if x.length ≠ wfLen dflt.1 then
    Except.error
      "AttributeError: the functools cache wrapper has no attribute func"
  else Except.ok (mtRemove C lineFreqs notchWidths dflt x)

/-! ### The COLA engine
(`_COLA` from `PreProcess.utils.utils` / `COLA` from `ieeg.process`; the
class itself is not among the sources, so its splitting/emission behaviour
is modelled from the spec, while the overlap actually passed to it comes
from the sources.) -/

/-- `n_overlap = (n_samples + 1) // 2` (filter.py:182, mt_filter.py:203):
the overlap, in samples, between adjacent COLA windows. -/
def colaOverlap (nSamples : ℕ) : ℕ := (nSamples + 1) / 2

/-- The overlap value the claim under scrutiny states:
`ceil((window_length + 1) / 2)` in exact arithmetic. -/
def claimedOverlap (nSamples : ℕ) : ℕ := ⌈((nSamples : ℚ) + 1) / 2⌉₊

/-- The hop between the starts of adjacent COLA windows:
window length minus overlap. -/
def colaHop (nSamples : ℕ) : ℕ := nSamples - colaOverlap nSamples

/-- Modelled from the spec: the number of windows the COLA engine uses for
a channel of `nTotal` samples — one when the signal fits in a single
window, otherwise enough hops for the last window to reach the signal
end. -/
def numWindows (nTotal nSamples hop : ℕ) : ℕ :=
  if nTotal ≤ nSamples then 1 else (nTotal - nSamples + hop - 1) / hop + 1

/-- Modelled from the spec: the start offsets of the COLA windows, one
every `hop` samples. -/
def colaStarts (nTotal nSamples hop : ℕ) : List ℕ :=
  (List.range (numWindows nTotal nSamples hop)).map fun k => k * hop

/-- A window of the channel: `nSamples` samples starting at `s`, clipped to
the end of the signal. -/
def colaChunk (x : List ℚ) (nSamples s : ℕ) : List ℚ := (x.drop s).take nSamples

/-- Modelled from the spec: one COLA run over a channel.  Each window is
sent through `_mt_remove` and the processed windows are accumulated into a
same-length output by weighted overlap-add; the crossfade weight applied at
position `j` of window `k` is left abstract (parameter `weight`), since the
COLA implementation is not among the sources.  Also returns the per-window
removal records. -/
def colaRun (C : MTContext) (lineFreqs notchWidths : Option (List ℚ))
    (dflt : List (List ℚ) × ℚ) (weight : ℕ → ℕ → ℚ) (x : List ℚ) :
    List ℚ × List (List ℚ) :=
  let nS := wfLen dflt.1
  let hop := colaHop nS
  let m := numWindows x.length nS hop
  let procd := (List.range m).map fun k =>
    mtRemove C lineFreqs notchWidths dflt (colaChunk x nS (k * hop))
  let out := (List.range x.length).map fun t =>
    ((List.range m).map fun k =>
      if k * hop ≤ t ∧ t < k * hop + (procd.getD k ([], [])).1.length then
        weight k (t - k * hop) * (procd.getD k ([], [])).1.getD (t - k * hop) 0
      else 0).sum
  (out, procd.map fun p => p.2)

/-- `_mt_remove_win` (filter.py:175-203): compute the default
taper/threshold pair for the filter length, then run the COLA engine over
the channel.  The `ieeg` counterpart (`WindowingRemover.__call__`,
mt_filter.py:197-235) differs — it uses the `ieeg` `_mt_remove` and logs a
per-channel report — and is modelled by `colaRunIeeg` below. -/
def mtRemoveWin (C : MTContext) (lineFreqs notchWidths : Option (List ℚ))
    (filterLength : ℕ) (weight : ℕ → ℕ → ℚ) (x : List ℚ) :
    List ℚ × List (List ℚ) :=
  colaRun C lineFreqs notchWidths (getWindowThresh C filterLength) weight x

/-- Sequential left-to-right processing with exception propagation: the
first failing element aborts the whole run, as an uncaught Python exception
does. -/
def exceptMapList (f : α → Except String β) : List α → Except String (List β)
  | [] => Except.ok []
  | a :: t =>
    match f a with
    | Except.error e => Except.error e
    | Except.ok y =>
      match exceptMapList f t with
      | Except.error e => Except.error e
      | Except.ok ys => Except.ok (y :: ys)

/-- The `ieeg` channel run (`WindowingRemover.__call__`,
mt_filter.py:197-235): the same COLA split (modelled from the spec), but
each window goes through the `ieeg` `_mt_remove` (`mtRemoveIeeg`), whose
recompute path raises; an exception in any window aborts the channel, so no
output buffer is produced for that channel. -/
def colaRunIeeg (C : MTContext) (lineFreqs notchWidths : Option (List ℚ))
    (dflt : List (List ℚ) × ℚ) (weight : ℕ → ℕ → ℚ) (x : List ℚ) :
    Except String (List ℚ × List (List ℚ)) :=
  let nS := wfLen dflt.1
  let hop := colaHop nS
  let m := numWindows x.length nS hop
  match exceptMapList
      (fun k => mtRemoveIeeg C lineFreqs notchWidths dflt
        (colaChunk x nS (k * hop))) (List.range m) with
  | Except.error e => Except.error e
  | Except.ok procd =>
    Except.ok
      ((List.range x.length).map fun t =>
        ((List.range m).map fun k =>
          if k * hop ≤ t ∧ t < k * hop + (procd.getD k ([], [])).1.length then
            weight k (t - k * hop) *
              (procd.getD k ([], [])).1.getD (t - k * hop) 0
          else 0).sum,
       procd.map fun p => p.2)

/-- Modelled from the spec: the emission boundary sequence of the COLA
engine for a channel — the `store` callback receives the finished span
between consecutive boundaries, the last boundary being the channel
length. -/
def colaBound (nTotal hop m : ℕ) (k : ℕ) : ℕ :=
  if m ≤ k then nTotal else min (k * hop) nTotal

/-- The lengths of the spans handed to `store`, in order. -/
def colaSegLens (nTotal nSamples hop : ℕ) : List ℕ :=
  let m := numWindows nTotal nSamples hop
  (List.range m).map fun k =>
    colaBound nTotal hop m (k + 1) - colaBound nTotal hop m k

/-- The write cursor of `store` (filter.py:195-198, mt_filter.py:216-219):
starts at `0` and advances by the length of each stored span. -/
def colaCursor (nTotal nSamples hop : ℕ) : ℕ :=
  (colaSegLens nTotal nSamples hop).foldl (fun idx l => idx + l) 0

/-! ### The channel dispatcher -/

/-- `mt_spectrum_proc` of `PreProcess/filter.py` (lines 149-159): every row
of the 2-D buffer is replaced by its filtered version when its index is
among the picks, and kept as is otherwise. -/
def mtSpectrumProcPre (process : List ℚ → List ℚ) (picks : List ℕ)
    (x : List (List ℚ)) : List (List ℚ) :=
  x.enum.map fun p => if p.1 ∈ picks then process p.2 else p.2

/-- Modelled from the spec: `proc_array` (module `ieeg.process`, absent
from the sources) applies the per-channel process to every row of the
array it is given. -/
def procArray (process : List ℚ → List ℚ) (x : List (List ℚ)) :
    List (List ℚ) :=
  x.map process

/-- `mt_spectrum_proc` of `ieeg/mt_filter.py` (lines 151-160): the picks
are expanded by `_prep_for_filtering` (line 155) but not forwarded to
`proc_array` (line 157), which therefore processes every row. -/
def mtSpectrumProcIeeg (process : List ℚ → List ℚ) (picks : List ℕ)
    (x : List (List ℚ)) : List (List ℚ) :=
  let _expandedPicks := picks
  procArray process x

/-- Regrouping a flat row list into groups of `n` rows — the inverse of the
`x.shape = (np.prod(x.shape[:-1]), x.shape[-1])` flattening of
`_prep_for_filtering` (filter.py:258, mt_filter.py:293). -/
def groupN (n : ℕ) : List α → List (List α)
  | [] => []
  | a :: t =>
    if _h : n = 0 then []
    else ((a :: t).take n) :: groupN n ((a :: t).drop n)
termination_by l => l.length
decreasing_by simp [List.length_drop]; omega

/-- The pick expansion of `_prep_for_filtering` for 3-D input
(filter.py:259-263, mt_filter.py:294-298): the picks are tiled per epoch
with an offset of `n_channels` per epoch. -/
def expandPicks3 (picks : List ℕ) (nEpochs nChannels : ℕ) : List ℕ :=
  ((List.range nEpochs).map fun e => picks.map fun p => p + e * nChannels).flatten

/-- The 3-D dispatcher path: flatten epochs×channels into rows
(`_prep_for_filtering`), filter the picked rows, reshape back
(filter.py:171). -/
def mtSpectrumProc3 (process : List ℚ → List ℚ) (picks : List ℕ)
    (nChannels : ℕ) (x : List (List (List ℚ))) : List (List (List ℚ)) :=
  groupN nChannels
    (mtSpectrumProcPre process (expandPicks3 picks x.length nChannels) x.flatten)

/-! ### The removal report

The two implementations differ.  `PreProcess` (filter.py:161-169) builds
one `Counter` in `mt_spectrum_proc` over all channels, iterating
`for f in freq_list for ff in f`, where `ff` is one chunk's array of
removed frequencies, so `np.unique(np.round(ff))` deduplicates within each
chunk.  `ieeg` (mt_filter.py:225-233) builds its `Counter` inside
`WindowingRemover.__call__`, which runs on one channel, and iterates
`for f in rm_freqs for ff in f`, where `rm_freqs` is already the
per-channel list of chunk arrays — so `ff` is a single frequency and
`np.unique(np.round(ff))` is a one-element array that deduplicates
nothing. -/

/-- `np.round` on a scalar: round half to even, NumPy's rule. -/
def npRound (q : ℚ) : ℤ :=
  let f := ⌊q⌋
  let r := q - (f : ℚ)
  if r < 1 / 2 then f
  else if 1 / 2 < r then f + 1
  else if Even f then f else f + 1

/-- Sorted insertion without duplication. -/
def insSorted (a : ℤ) : List ℤ → List ℤ
  | [] => [a]
  | b :: t => if a < b then a :: b :: t
      else if a = b then b :: t
      else b :: insSorted a t

/-- `np.unique` composed with `sorted(...)` key listing: the strictly
sorted list of distinct values. -/
def sortDedup (l : List ℤ) : List ℤ := l.foldr insSorted []

/-- The flat multiset the `PreProcess` `Counter` is built from: for every
channel and every chunk, the distinct 1 Hz bins (`np.unique(np.round(ff))`)
of that chunk's removal record, concatenated across chunks and channels
(filter.py:163-164 only; the `ieeg` counterpart is `allBinsIeeg`). -/
def allBins (records : List (List (List ℚ))) : List ℤ :=
  (records.flatten.map fun chunk => sortDedup (chunk.map npRound)).flatten

/-- The `PreProcess` `Counter`: how many chunks (across all channels)
removed a given 1 Hz bin. -/
def freqCounts (records : List (List (List ℚ))) (b : ℤ) : ℕ :=
  (allBins records).count b

/-- The `PreProcess` reported table: one `(frequency, count)` row per
distinct bin, in the order `sorted(counts)` iterates them
(filter.py:166-168). -/
def freqReport (records : List (List (List ℚ))) : List (ℤ × ℕ) :=
  (sortDedup (allBins records)).map fun b => (b, freqCounts records b)

/-- The flat multiset the `ieeg` `Counter` is built from, for one channel's
`rm_freqs`: `ff` ranges over single frequencies, so
`np.unique(np.round(ff)).tolist()` is the one-element list `[round ff]` and
the concatenation is every removed frequency, rounded, with multiplicity
(mt_filter.py:227-228). -/
def allBinsIeeg (rmFreqs : List (List ℚ)) : List ℤ :=
  (rmFreqs.flatten).map npRound

/-- The `ieeg` per-channel `Counter`: how many removed frequencies of this
one channel round to a given 1 Hz bin — counted with multiplicity, a chunk
can contribute the same bin more than once. -/
def freqCountsIeeg (rmFreqs : List (List ℚ)) (b : ℤ) : ℕ :=
  (allBinsIeeg rmFreqs).count b

/-- The `ieeg` per-channel reported table (mt_filter.py:230-232), one per
invocation of `WindowingRemover.__call__`, i.e. one per channel. -/
def freqReportIeeg (rmFreqs : List (List ℚ)) : List (ℤ × ℕ) :=
  (sortDedup (allBinsIeeg rmFreqs)).map fun b => (b, freqCountsIeeg rmFreqs b)

/-- The report heading: `'Detected' if line_freqs is None else 'Removed'`
(filter.py:165, mt_filter.py:229 — this line is the same in both files). -/
def reportKind (lineFreqs : Option (List ℚ)) : String :=
  match lineFreqs with
  | none => "Detected"
  | some _ => "Removed"

/-! ### The full `line_filter` pipeline -/

/-- `line_filter` restricted to what the claims are about: the notch-width
validation runs first and any validation failure is returned before a
single channel is touched; only on success is the channel dispatcher
invoked (filter.py:101-139, mt_filter.py:118-146). -/
def lineFilterRun (C : MTContext) (freqs notchWidths : Option NDArr)
    (filterLength : ℕ) (weight : ℕ → ℕ → ℚ) (picks : List ℕ)
    (x : List (List ℚ)) : Except String (List (List ℚ)) :=
  match checkNotchWidths freqs notchWidths with
  | Except.error e => Except.error e
  | Except.ok ws =>
    Except.ok (mtSpectrumProcPre
      (fun row => (mtRemoveWin C (freqs.map fun a => a.data)
        (ws.map fun a => a.data) filterLength weight row).1)
      picks x)

/-- The sinusoid as the spec words it: `|2·A(f)| · cos(2π·f·t + angle(2·A(f)))`
evaluated at `t = sample_index / sampling_rate`.  Written from the spec
sentence, to be compared with the code-side `fitAt`. -/
def specSinusoid (C : MTContext) (wf : List (List ℚ)) (x : List ℚ)
    (i t : ℕ) : ℚ :=
  let c := cTwo (C.amp wf x i)
  C.absC c *
    C.cosF (C.twoPi * specFreqs C.sfreq x.length i * ((t : ℚ) / C.sfreq) +
      C.angleC c)

/-! ### Concrete instances used by the witnesses -/

/-- A concrete taper bank: one rectangular taper per window length. -/
def wBank : TaperBank :=
  ⟨fun n => [List.replicate n 1], by
    intro n t ht
    simp only [List.mem_singleton] at ht
    subst ht
    simp⟩

/-- A concrete context for evaluating the pipeline on closed inputs. -/
def wCtx : MTContext :=
  { sfreq := 1, pValue := 1 / 20, bank := wBank,
    ppf := fun q a b => q + (a : ℚ) + (b : ℚ),
    fStat := fun _ _ _ => 1,
    amp := fun _ _ _ => ⟨1, 0⟩,
    absC := fun _ => 1, angleC := fun _ => 0,
    cosF := fun _ => 1, twoPi := 0 }

/-- A variant of `wCtx` whose F-quantile is constantly `0`, so that the
constant F-statistic `1` always exceeds the threshold and every bin is
deemed significant — convenient for exhibiting concrete removals. -/
def wCtxZ : MTContext :=
  { wCtx with ppf := fun _ _ _ => 0 }

/-! ### Helper lemmas -/

theorem wfLen_tapers (C : MTContext) (L : ℕ) (hK : C.bank.tapers L ≠ []) :
    wfLen (C.bank.tapers L) = L := by
  unfold wfLen
  cases h : C.bank.tapers L with
  | nil => exact absurd h hK
  | cons a t =>
    simpa using C.bank.shape L a (by rw [h]; exact List.mem_cons_self a t)

theorem mtRemove_length (C : MTContext) (lf nw : Option (List ℚ))
    (dflt : List (List ℚ) × ℚ) (x : List ℚ) :
    (mtRemove C lf nw dflt x).1.length = x.length := by
  simp [mtRemove]

/-! ### Claim C1 -/

/-- C1 (code_bug evidence): in the `PreProcess` implementation the
threshold used for every chunk is `ppf(1 - p_value / n, 2, 2K - 2)` with
the caller-supplied p-value, `n` the chunk's length and `K` the taper count
for that length; but the `ieeg` `line_filter` fills `WindowingRemover`'s
constructor positionally in the wrong order, so the remover stores
`p_value = mt_bandwidth`, `bandwidth = p_value`, `low_bias = adaptive` and
`adaptive = low_bias` — its threshold is the `(1 - mt_bandwidth/n)`
quantile when `mt_bandwidth` is given, and with the default
`mt_bandwidth = None` the threshold computation raises, so the `ieeg`
threshold is never the caller's p-value quantile the claim asserts. -/
theorem threshold_pvalue_swap (C : MTContext) (L n : ℕ)
    (hK : C.bank.tapers L ≠ []) (fs : ℚ)
    (freqs nwid : Option (List ℚ)) (flen : ℕ) (adp lb : Bool)
    (pv : ℚ) (mtb : Option ℚ) :
    (chunkWindowThresh C (getWindowThresh C L) n).2
        = C.ppf (1 - C.pValue / (n : ℚ)) 2 (2 * (C.bank.tapers n).length - 2)
      ∧ (mkWindowingRemover fs freqs nwid flen adp lb (some pv) mtb).pValue
          = mtb
      ∧ (mkWindowingRemover fs freqs nwid flen adp lb (some pv) mtb).bandwidth
          = some pv
      ∧ (mkWindowingRemover fs freqs nwid flen adp lb (some pv) mtb).lowBias
          = adp
      ∧ (mkWindowingRemover fs freqs nwid flen adp lb (some pv) mtb).adaptive
          = lb
      ∧ (mtb = none → ∃ e, wrGetThreshActual C
          (mkWindowingRemover fs freqs nwid flen adp lb (some pv) mtb)
          (some n) = Except.error e)
      ∧ (∀ b, mtb = some b → wrGetThreshActual C
          (mkWindowingRemover fs freqs nwid flen adp lb (some pv) mtb)
          (some n)
            = Except.ok (C.bank.tapers n,
                C.ppf (1 - b / (n : ℚ))
                  2 (2 * (C.bank.tapers n).length - 2))) := by
  refine ⟨?_, rfl, rfl, rfl, rfl, ?_, ?_⟩
  · unfold chunkWindowThresh
    by_cases hn : n = wfLen (getWindowThresh C L).1
    · have hL : wfLen (getWindowThresh C L).1 = L := wfLen_tapers C L hK
      rw [if_neg (by simp [hn]), hn, hL]
      rfl
    · rw [if_pos (by simpa using hn)]
      rfl
  · intro hnone
    subst hnone
    exact ⟨_, rfl⟩
  · intro b hb
    subst hb
    rfl

/-- Witness for C1 at a concrete context, filter length 2, chunk length 3,
caller p-value 1/20, once with `mt_bandwidth = 10` and once with the
default `mt_bandwidth = None`. -/
theorem threshold_pvalue_swap_witness :
    (chunkWindowThresh wCtx (getWindowThresh wCtx 2) 3).2
        = wCtx.ppf (1 - wCtx.pValue / (3 : ℚ))
            2 (2 * (wCtx.bank.tapers 3).length - 2)
      ∧ (mkWindowingRemover 1 none none 2 true true (some (1/20))
          (some 10)).pValue = some 10
      ∧ (mkWindowingRemover 1 none none 2 true true (some (1/20))
          (some 10)).bandwidth = some (1/20)
      ∧ wrGetThreshActual wCtx
          (mkWindowingRemover 1 none none 2 true true (some (1/20)) (some 10))
          (some 3)
          = Except.ok (wCtx.bank.tapers 3,
              wCtx.ppf (1 - 10 / (3 : ℚ))
                2 (2 * (wCtx.bank.tapers 3).length - 2))
      ∧ (∃ e, wrGetThreshActual wCtx
          (mkWindowingRemover 1 none none 2 true true (some (1/20)) none)
          (some 3) = Except.error e) := by
  have h1 := threshold_pvalue_swap wCtx 2 3 (by decide) 1 none none 2
    true true (1/20) (some 10)
  have h2 := threshold_pvalue_swap wCtx 2 3 (by decide) 1 none none 2
    true true (1/20) none
  exact ⟨h1.1, h1.2.1, h1.2.2.1, h1.2.2.2.2.2.2 10 rfl,
    h2.2.2.2.2.2.1 rfl⟩

/-! ### Claim C8 -/

/-- C8 (code_bug evidence): in the `PreProcess` implementation a chunk
whose length differs from the default taper length (the clipped final
chunk) is not an error — `_mt_remove` recomputes a fresh taper set (rows of
exactly the chunk's length) and threshold for that exact length and returns
a result of the chunk's length; but in the `ieeg` implementation the same
recompute path evaluates `get_thresh.func(...)`/`get_thresh.args[1:]` on
the bound `functools.cache` method, which has neither attribute, so
processing the shorter chunk raises `AttributeError` — it IS an error
there, while a chunk of exactly the taper length is processed as in
`PreProcess`. -/
theorem short_final_chunk_recompute_vs_crash (C : MTContext)
    (lf nw : Option (List ℚ)) (L : ℕ) (x : List ℚ)
    (h : x.length ≠ wfLen (getWindowThresh C L).1) :
    (chunkWindowThresh C (getWindowThresh C L) x.length).1
        = C.bank.tapers x.length
      ∧ (∀ t ∈ (chunkWindowThresh C (getWindowThresh C L) x.length).1,
          t.length = x.length)
      ∧ (chunkWindowThresh C (getWindowThresh C L) x.length).2
          = (getWindowThresh C x.length).2
      ∧ (mtRemove C lf nw (getWindowThresh C L) x).1.length = x.length
      ∧ (∃ e, mtRemoveIeeg C lf nw (getWindowThresh C L) x
          = Except.error e)
      ∧ (∀ y : List ℚ, y.length = wfLen (getWindowThresh C L).1 →
          mtRemoveIeeg C lf nw (getWindowThresh C L) y
            = Except.ok (mtRemove C lf nw (getWindowThresh C L) y)) := by
  refine ⟨?_, ?_, ?_, mtRemove_length C lf nw (getWindowThresh C L) x,
    ?_, ?_⟩
  · unfold chunkWindowThresh
    rw [if_pos h]
    rfl
  · unfold chunkWindowThresh
    rw [if_pos h]
    exact fun t ht => C.bank.shape x.length t ht
  · unfold chunkWindowThresh
    rw [if_pos h]
  · unfold mtRemoveIeeg
    rw [if_pos h]
    exact ⟨_, rfl⟩
  · intro y hy
    unfold mtRemoveIeeg
    rw [if_neg (by simp [hy])]

/-- Witness for C8: default filter length 4, final chunk of length 3
(recomputed cleanly in `PreProcess`, an error in `ieeg`) and a full-length
chunk of length 4 (processed in both). -/
theorem short_final_chunk_recompute_vs_crash_witness :
    (chunkWindowThresh wCtx (getWindowThresh wCtx 4) 3).1
        = wCtx.bank.tapers 3
      ∧ (∀ t ∈ (chunkWindowThresh wCtx (getWindowThresh wCtx 4) 3).1,
          t.length = 3)
      ∧ (chunkWindowThresh wCtx (getWindowThresh wCtx 4) 3).2
          = (getWindowThresh wCtx 3).2
      ∧ (mtRemove wCtx none none (getWindowThresh wCtx 4) [1, 2, 3]).1.length
          = 3
      ∧ (∃ e, mtRemoveIeeg wCtx none none (getWindowThresh wCtx 4) [1, 2, 3]
          = Except.error e)
      ∧ mtRemoveIeeg wCtx none none (getWindowThresh wCtx 4) [1, 2, 3, 4]
          = Except.ok
              (mtRemove wCtx none none (getWindowThresh wCtx 4) [1, 2, 3, 4])
    := by
  have h := short_final_chunk_recompute_vs_crash wCtx none none 4 [1, 2, 3]
    (by decide)
  exact ⟨by simpa using h.1, by simpa using h.2.1, by simpa using h.2.2.1,
    by simpa using h.2.2.2.1, by simpa using h.2.2.2.2.1,
    h.2.2.2.2.2 [1, 2, 3, 4] (by decide)⟩

/-! ### Claim C2 -/

theorem fitAt_eq_specSinusoid (C : MTContext) (wf : List (List ℚ))
    (x : List ℚ) (i t : ℕ) :
    fitAt C wf x i t = specSinusoid C wf x i t := by
  unfold fitAt specSinusoid
  ring_nf

theorem enum_map_sub_getD (x : List ℚ) (d : ℕ → ℚ) (t : ℕ)
    (ht : t < x.length) :
    (x.enum.map fun p => p.2 - d p.1).getD t 0 = x.getD t 0 - d t := by
  rw [List.getD_eq_getElem _ _ (by simpa using ht),
    List.getD_eq_getElem _ _ ht]
  simp

/-- C2: every chunk returned by `_mt_remove` equals the input chunk minus,
at each sample `t`, the sum over all significant bin indices of the real
sinusoid `|2·A(f)|·cos(2π·f·t + angle(2·A(f)))` evaluated at
`t = sample_index / sampling_rate` (stated through the spec-side
`specSinusoid`); and when the set of significant bins is empty the chunk is
returned unmodified. -/
theorem remover_subtracts_sinusoids (C : MTContext) (lf nw : Option (List ℚ))
    (dflt : List (List ℚ) × ℚ) (x : List ℚ) (t : ℕ) (ht : t < x.length) :
    (mtRemove C lf nw dflt x).1.getD t 0
        = x.getD t 0 -
          ((removedIndices C lf nw (chunkWindowThresh C dflt x.length).1
              (chunkWindowThresh C dflt x.length).2 x).map fun i =>
            specSinusoid C (chunkWindowThresh C dflt x.length).1 x i t).sum
      ∧ (removedIndices C lf nw (chunkWindowThresh C dflt x.length).1
            (chunkWindowThresh C dflt x.length).2 x = [] →
          (mtRemove C lf nw dflt x).1 = x) := by
  set wt := chunkWindowThresh C dflt x.length with hwt
  set inds := removedIndices C lf nw wt.1 wt.2 x with hinds
  have hmt : (mtRemove C lf nw dflt x).1
      = x.enum.map (fun p => p.2 -
          (if inds.isEmpty then (0 : ℚ)
           else (inds.map fun i => fitAt C wt.1 x i p.1).sum)) := rfl
  constructor
  · rw [hmt, enum_map_sub_getD x
      (fun u => if inds.isEmpty then (0 : ℚ)
        else (inds.map fun i => fitAt C wt.1 x i u).sum) t ht]
    by_cases he : inds.isEmpty
    · have h0 : inds = [] := by simpa using he
      simp [h0]
    · simp only [if_neg he]
      have := congrArg List.sum
        (List.map_congr_left (l := inds)
          fun i _ => fitAt_eq_specSinusoid C wt.1 x i t)
      rw [this]
  · intro h0
    rw [hmt]
    simp [h0, List.enum_map_snd]

/-- Witness for C2 at a concrete context and the chunk `[0, 0]`. -/
theorem remover_subtracts_sinusoids_witness :
    (mtRemove wCtx none none (getWindowThresh wCtx 2) [0, 0]).1.getD 0 0
        = ([0, 0] : List ℚ).getD 0 0 -
          ((removedIndices wCtx none none
              (chunkWindowThresh wCtx (getWindowThresh wCtx 2)
                ([0, 0] : List ℚ).length).1
              (chunkWindowThresh wCtx (getWindowThresh wCtx 2)
                ([0, 0] : List ℚ).length).2 [0, 0]).map fun i =>
            specSinusoid wCtx
              (chunkWindowThresh wCtx (getWindowThresh wCtx 2)
                ([0, 0] : List ℚ).length).1 [0, 0] i 0).sum
      ∧ (removedIndices wCtx none none
            (chunkWindowThresh wCtx (getWindowThresh wCtx 2)
              ([0, 0] : List ℚ).length).1
            (chunkWindowThresh wCtx (getWindowThresh wCtx 2)
              ([0, 0] : List ℚ).length).2 [0, 0] = [] →
          (mtRemove wCtx none none (getWindowThresh wCtx 2) [0, 0]).1
            = [0, 0]) :=
  remover_subtracts_sinusoids wCtx none none (getWindowThresh wCtx 2)
    [0, 0] 0 (by decide)

/-! ### Claim C4 -/

/-- C4: when explicit target frequencies and notch widths are supplied, the
set of bins removed from a chunk is exactly the set of bins that both
exceed the unconstrained F-test threshold and whose frequency lies within
`[freq - width/2, freq + width/2]` for at least one target (the range
filter being applied after the unconstrained threshold test), and when
target frequencies are null every bin exceeding the threshold is
removed. -/
theorem targeted_filter_posthoc (C : MTContext) (lfs nws : List ℚ)
    (wf : List (List ℚ)) (thr : ℚ) (x : List ℚ) :
    removedIndices C (some lfs) (some nws) wf thr x
        = (List.range (nBins x.length)).filter (fun i =>
            decide (thr < C.fStat wf x i) &&
              inRanges (mkRanges lfs nws) (specFreqs C.sfreq x.length i))
      ∧ (∀ nw', removedIndices C none nw' wf thr x
          = (List.range (nBins x.length)).filter fun i =>
              decide (thr < C.fStat wf x i)) := by
  constructor
  · unfold removedIndices sigIndices
    dsimp only
    rw [List.filter_filter]
    exact List.filter_congr fun a _ => Bool.and_comm _ _
  · intro nw'
    rfl

/-! ### Claim C3 -/

/-- C3 counterexample: at window length `10` the engine's overlap
`(n_samples + 1) // 2 = 5` differs from the claimed
`ceil((window_length + 1) / 2) = 6`. -/
theorem cola_overlap_counterexample :
    colaOverlap 10 = 5 ∧ claimedOverlap 10 = 6
      ∧ colaOverlap 10 ≠ claimedOverlap 10 := by
  have h : claimedOverlap 10 = 6 := by
    unfold claimedOverlap
    rw [show ((10 : ℕ) : ℚ) + 1 = 11 by norm_num]
    rw [Nat.ceil_eq_iff (by norm_num)]
    norm_num
  exact ⟨rfl, h, by rw [h]; decide⟩

theorem colaHop_eq (nS : ℕ) : colaHop nS = nS / 2 := by
  unfold colaHop colaOverlap
  omega

theorem numWindows_pos (nTotal nS hop : ℕ) : 0 < numWindows nTotal nS hop := by
  unfold numWindows
  split
  · omega
  · exact Nat.succ_pos _

theorem numWindows_reach (nTotal nS hop : ℕ) (hhop : 0 < hop) :
    nTotal ≤ (numWindows nTotal nS hop - 1) * hop + nS := by
  unfold numWindows
  split
  · omega
  · have hdm := Nat.div_add_mod (nTotal - nS + hop - 1) hop
    have hr : (nTotal - nS + hop - 1) % hop < hop := Nat.mod_lt _ hhop
    rw [Nat.add_sub_cancel, Nat.mul_comm]
    generalize hop * ((nTotal - nS + hop - 1) / hop) = mq at hdm ⊢
    omega

theorem numWindows_start_lt (nTotal nS hop : ℕ) (hhop : 0 < hop)
    (hSle : hop ≤ nS) (h0 : 0 < nTotal) :
    (numWindows nTotal nS hop - 1) * hop < nTotal := by
  unfold numWindows
  split
  · omega
  · have hdm := Nat.div_add_mod (nTotal - nS + hop - 1) hop
    have hr : (nTotal - nS + hop - 1) % hop < hop := Nat.mod_lt _ hhop
    rw [Nat.add_sub_cancel, Nat.mul_comm]
    generalize hop * ((nTotal - nS + hop - 1) / hop) = mq at hdm ⊢
    omega

/-- C3 (amended): the COLA engine's overlap between adjacent windows equals
`floor((window_length + 1) / 2)` (that is, `ceil(window_length / 2)`)
samples, with hop = window_length − overlap, and the windows exactly cover
the input without gaps: every sample index lies inside a window that starts
inside the signal. -/
theorem cola_windows_cover (nS nTotal : ℕ) (hS : 2 ≤ nS) (h0 : 0 < nTotal) :
    colaOverlap nS = (nS + 1) / 2
      ∧ colaHop nS = nS - colaOverlap nS
      ∧ ∀ i < nTotal, ∃ s ∈ colaStarts nTotal nS (colaHop nS),
          s ≤ i ∧ i < s + nS ∧ s < nTotal := by
  refine ⟨rfl, rfl, ?_⟩
  intro i hi
  set hop := colaHop nS with hhopdef
  have hhop : 0 < hop := by rw [hhopdef, colaHop_eq]; omega
  have hle : hop ≤ nS := by rw [hhopdef, colaHop_eq]; omega
  set m := numWindows nTotal nS hop with hm
  have hm1 : 0 < m := numWindows_pos _ _ _
  set k0 := min (i / hop) (m - 1) with hk0
  refine ⟨k0 * hop, ?_, ?_, ?_, ?_⟩
  · unfold colaStarts
    rw [← hm]
    exact List.mem_map.mpr ⟨k0, List.mem_range.mpr (by omega), rfl⟩
  · rcases le_or_lt (i / hop) (m - 1) with h | h
    · have hk : k0 = i / hop := by omega
      rw [hk]
      exact Nat.div_mul_le_self i hop
    · have hk : k0 = m - 1 := by omega
      rw [hk]
      calc (m - 1) * hop ≤ (i / hop) * hop :=
            Nat.mul_le_mul_right hop (by omega)
        _ ≤ i := Nat.div_mul_le_self i hop
  · rcases le_or_lt (i / hop) (m - 1) with h | h
    · have hk : k0 = i / hop := by omega
      rw [hk]
      have hdm := Nat.div_add_mod i hop
      have hr : i % hop < hop := Nat.mod_lt _ hhop
      rw [Nat.mul_comm]
      generalize hop * (i / hop) = mq at hdm ⊢
      omega
    · have hk : k0 = m - 1 := by omega
      rw [hk]
      have hreach := numWindows_reach nTotal nS hop hhop
      rw [← hm] at hreach
      generalize (m - 1) * hop = s at hreach ⊢
      omega
  · have hlt := numWindows_start_lt nTotal nS hop hhop hle h0
    rw [← hm] at hlt
    exact lt_of_le_of_lt (Nat.mul_le_mul_right hop (by omega)) hlt

/-- Witness for the amended C3 at window length 4 over a 5-sample
channel. -/
theorem cola_windows_cover_witness :
    colaOverlap 4 = (4 + 1) / 2
      ∧ colaHop 4 = 4 - colaOverlap 4
      ∧ ∀ i < 5, ∃ s ∈ colaStarts 5 4 (colaHop 4),
          s ≤ i ∧ i < s + 4 ∧ s < 5 :=
  cola_windows_cover 4 5 (by decide) (by decide)

/-! ### COLA write-cursor lemmas -/

theorem colaBound_zero (nTotal hop m : ℕ) (hm : 0 < m) :
    colaBound nTotal hop m 0 = 0 := by
  unfold colaBound
  rw [if_neg (by omega)]
  simp

theorem colaBound_last (nTotal hop m : ℕ) :
    colaBound nTotal hop m m = nTotal := by
  unfold colaBound
  simp

theorem colaBound_mono (nTotal hop m k : ℕ) :
    colaBound nTotal hop m k ≤ colaBound nTotal hop m (k + 1) := by
  unfold colaBound
  by_cases h1 : m ≤ k
  · rw [if_pos h1, if_pos (by omega)]
  · rw [if_neg h1]
    by_cases h2 : m ≤ k + 1
    · rw [if_pos h2]
      exact min_le_right _ _
    · rw [if_neg h2]
      exact min_le_min (Nat.mul_le_mul_right hop (by omega)) le_rfl

theorem foldl_telescope (f : ℕ → ℕ) (hmono : ∀ k, f k ≤ f (k + 1)) (m : ℕ) :
    ((List.range m).map fun k => f (k + 1) - f k).foldl
        (fun a b => a + b) 0 = f m - f 0 := by
  induction m with
  | zero => simp
  | succ m ih =>
    rw [List.range_succ, List.map_append, List.foldl_append, ih]
    have h0m : f 0 ≤ f m := monotone_nat_of_le_succ hmono (Nat.zero_le m)
    have hs := hmono m
    simp only [List.map_cons, List.map_nil, List.foldl_cons, List.foldl_nil]
    omega

theorem cola_cursor_eq (nTotal nS hop : ℕ) :
    colaCursor nTotal nS hop = nTotal := by
  unfold colaCursor colaSegLens
  have hm : 0 < numWindows nTotal nS hop := numWindows_pos _ _ _
  rw [foldl_telescope (colaBound nTotal hop (numWindows nTotal nS hop))
    (colaBound_mono _ _ _) _]
  rw [colaBound_last, colaBound_zero _ _ _ hm]
  omega

/-! ### Claim C5 -/

theorem mem_insSorted (a b : ℤ) (l : List ℤ) :
    b ∈ insSorted a l ↔ b = a ∨ b ∈ l := by
  induction l with
  | nil => simp [insSorted]
  | cons c t ih =>
    unfold insSorted
    by_cases h1 : a < c
    · rw [if_pos h1]
      simp only [List.mem_cons]
    · rw [if_neg h1]
      by_cases h2 : a = c
      · rw [if_pos h2]
        subst h2
        simp only [List.mem_cons]
        tauto
      · rw [if_neg h2]
        simp only [List.mem_cons, ih]
        tauto

theorem sorted_insSorted (a : ℤ) (l : List ℤ) (h : l.Sorted (· < ·)) :
    (insSorted a l).Sorted (· < ·) := by
  induction l with
  | nil => simp [insSorted]
  | cons c t ih =>
    rw [List.sorted_cons] at h
    unfold insSorted
    by_cases h1 : a < c
    · rw [if_pos h1]
      rw [List.sorted_cons]
      refine ⟨?_, by rw [List.sorted_cons]; exact h⟩
      intro b hb
      rcases List.mem_cons.mp hb with rfl | hb
      · exact h1
      · exact lt_trans h1 (h.1 b hb)
    · rw [if_neg h1]
      by_cases h2 : a = c
      · rw [if_pos h2, List.sorted_cons]
        exact h
      · rw [if_neg h2, List.sorted_cons]
        have hca : c < a := by omega
        refine ⟨?_, ih h.2⟩
        intro b hb
        rcases (mem_insSorted a b t).mp hb with rfl | hb
        · exact hca
        · exact h.1 b hb

theorem sortDedup_sorted (l : List ℤ) : (sortDedup l).Sorted (· < ·) := by
  induction l with
  | nil => simp [sortDedup]
  | cons a t ih => exact sorted_insSorted a _ ih

theorem mem_sortDedup (l : List ℤ) (b : ℤ) : b ∈ sortDedup l ↔ b ∈ l := by
  induction l with
  | nil => simp [sortDedup]
  | cons a t ih =>
    show b ∈ insSorted a (sortDedup t) ↔ _
    rw [mem_insSorted, ih]
    simp

theorem count_sortDedup (l : List ℤ) (b : ℤ) :
    (sortDedup l).count b = if b ∈ l then 1 else 0 := by
  have hnd : (sortDedup l).Nodup := (sortDedup_sorted l).nodup
  by_cases h : b ∈ l
  · rw [if_pos h]
    exact List.count_eq_one_of_mem hnd ((mem_sortDedup l b).mpr h)
  · rw [if_neg h]
    exact List.count_eq_zero_of_not_mem
      (fun hc => h ((mem_sortDedup l b).mp hc))

theorem count_binned (chunks : List (List ℚ)) (b : ℤ) :
    ((chunks.map fun c => sortDedup (c.map npRound)).flatten).count b
      = chunks.countP fun c => c.any fun f => npRound f == b := by
  induction chunks with
  | nil => simp
  | cons c t ih =>
    simp only [List.map_cons, List.flatten_cons, List.count_append,
      List.countP_cons, ih, count_sortDedup]
    by_cases h : b ∈ c.map npRound
    · have hany : (c.any fun f => npRound f == b) = true := by
        rw [List.any_eq_true]
        rcases List.mem_map.mp h with ⟨f, hf, hfb⟩
        exact ⟨f, hf, by simpa using hfb⟩
      rw [if_pos h, hany]
      simp [Nat.add_comm]
    · have hany : (c.any fun f => npRound f == b) = false := by
        rw [List.any_eq_false]
        intro f hf
        have hne : npRound f ≠ b := fun hfb =>
          h (List.mem_map.mpr ⟨f, hf, hfb⟩)
        simpa using hne
      rw [if_neg h, hany]
      simp

theorem freqCountsIeeg_countP (rm : List (List ℚ)) (b : ℤ) :
    freqCountsIeeg rm b = (rm.flatten).countP fun f => npRound f == b := by
  unfold freqCountsIeeg allBinsIeeg List.count
  rw [List.countP_map]
  rfl

/-- C5 counterexample: a single chunk whose removal record holds `60` and
`60.2` (both rounding to the 1 Hz bin `60`).  The `ieeg` counter counts the
bin twice for this one chunk, while the claim says each chunk contributes
at most once per bin — so the claim is false for the `ieeg`
implementation. -/
theorem report_dedup_counterexample :
    freqCountsIeeg [[60, 301/5]] 60 = 2
      ∧ (([[60, 301/5]] : List (List ℚ))).countP
          (fun chunk => chunk.any fun f => npRound f == 60) = 1
      ∧ freqCountsIeeg [[60, 301/5]] 60
          ≠ (([[60, 301/5]] : List (List ℚ))).countP
            (fun chunk => chunk.any fun f => npRound f == 60) := by
  have h60 : npRound (60 : ℚ) = 60 := by norm_num [npRound]
  have h602 : npRound (301/5 : ℚ) = 60 := by norm_num [npRound]
  have hc1 : freqCountsIeeg [[60, 301/5]] 60 = 2 := by
    simp [freqCountsIeeg, allBinsIeeg, h60, h602]
  have hc2 : (([[60, 301/5]] : List (List ℚ))).countP
      (fun chunk => chunk.any fun f => npRound f == 60) = 1 := by
    simp [List.countP_cons, h60]
  exact ⟨hc1, hc2, by rw [hc1, hc2]; decide⟩

/-- C5 (amended): the `PreProcess` implementation aggregates the removal
records of all channels into one 1 Hz count table — the count of a bin
equals the number of chunks (across all channels, each chunk contributing
at most once per bin) whose record contains a frequency rounding to that
bin — reported as `(frequency, count)` pairs sorted ascending, with
'Detected' framing when target frequencies are null and 'Removed' framing
when they are given; the `ieeg` implementation instead logs one table per
channel from inside the channel run, counting every removed frequency
individually (with multiplicity, so a chunk can contribute the same bin
more than once), also sorted ascending. -/
theorem removal_report_aggregation (records : List (List (List ℚ)))
    (b : ℤ) :
    freqCounts records b
        = (records.flatten).countP (fun chunk => chunk.any fun f =>
            npRound f == b)
      ∧ (freqReport records).map Prod.fst = sortDedup (allBins records)
      ∧ ((freqReport records).map Prod.fst).Sorted (· < ·)
      ∧ (∀ p ∈ freqReport records, p.2 = freqCounts records p.1)
      ∧ (b ∈ (freqReport records).map Prod.fst ↔ 0 < freqCounts records b)
      ∧ reportKind none = "Detected"
      ∧ (∀ lfs : List ℚ, reportKind (some lfs) = "Removed")
      ∧ (∀ rm : List (List ℚ), freqCountsIeeg rm b
          = (rm.flatten).countP fun f => npRound f == b)
      ∧ (∀ rm : List (List ℚ),
          ((freqReportIeeg rm).map Prod.fst).Sorted (· < ·))
      ∧ (∀ rm : List (List ℚ), ∀ p ∈ freqReportIeeg rm,
          p.2 = freqCountsIeeg rm p.1) := by
  have h2 : (freqReport records).map Prod.fst
      = sortDedup (allBins records) := by
    unfold freqReport
    rw [List.map_map]
    exact List.map_id _
  refine ⟨?_, h2, ?_, ?_, ?_, rfl, fun _ => rfl, ?_, ?_, ?_⟩
  · unfold freqCounts allBins
    exact count_binned records.flatten b
  · rw [h2]
    exact sortDedup_sorted _
  · intro p hp
    unfold freqReport at hp
    rcases List.mem_map.mp hp with ⟨c, _, rfl⟩
    rfl
  · rw [h2, mem_sortDedup]
    unfold freqCounts
    exact List.count_pos_iff.symm
  · intro rm
    exact freqCountsIeeg_countP rm b
  · intro rm
    have h3 : (freqReportIeeg rm).map Prod.fst
        = sortDedup (allBinsIeeg rm) := by
      unfold freqReportIeeg
      rw [List.map_map]
      exact List.map_id _
    rw [h3]
    exact sortDedup_sorted _
  · intro rm p hp
    unfold freqReportIeeg at hp
    rcases List.mem_map.mp hp with ⟨c, _, rfl⟩
    rfl

/-- Witness for C5 on a concrete two-channel record set. -/
theorem removal_report_aggregation_witness :
    freqCounts [[[60, 301/5], [60]], [[120, 60]]] 60
        = (([[[60, 301/5], [60]], [[120, 60]]] :
            List (List (List ℚ))).flatten).countP
            (fun chunk => chunk.any fun f => npRound f == 60)
      ∧ (freqReport [[[60, 301/5], [60]], [[120, 60]]]).map Prod.fst
          = sortDedup (allBins [[[60, 301/5], [60]], [[120, 60]]])
      ∧ ((freqReport [[[60, 301/5], [60]], [[120, 60]]]).map
          Prod.fst).Sorted (· < ·)
      ∧ (∀ p ∈ freqReport [[[60, 301/5], [60]], [[120, 60]]],
          p.2 = freqCounts [[[60, 301/5], [60]], [[120, 60]]] p.1)
      ∧ (60 ∈ (freqReport [[[60, 301/5], [60]], [[120, 60]]]).map Prod.fst
          ↔ 0 < freqCounts [[[60, 301/5], [60]], [[120, 60]]] 60)
      ∧ reportKind none = "Detected"
      ∧ (∀ lfs : List ℚ, reportKind (some lfs) = "Removed")
      ∧ (∀ rm : List (List ℚ), freqCountsIeeg rm 60
          = (rm.flatten).countP fun f => npRound f == 60)
      ∧ (∀ rm : List (List ℚ),
          ((freqReportIeeg rm).map Prod.fst).Sorted (· < ·))
      ∧ (∀ rm : List (List ℚ), ∀ p ∈ freqReportIeeg rm,
          p.2 = freqCountsIeeg rm p.1) :=
  removal_report_aggregation [[[60, 301/5], [60]], [[120, 60]]] 60

/-! ### Claims C7 and C10 -/

theorem promote_float_left (d : DType) :
    DType.promote DType.float64 d = DType.float64 := by
  cases d <;> rfl

theorem scalarMul_onesLike_float_data (fr : NDArr) (w0 : ℚ) :
    (scalarMul w0 DType.float64 (onesLike fr)).data
      = List.replicate fr.data.length w0 := by
  simp only [scalarMul, onesLike, promote_float_left]
  simp only [DType.castVal, List.map_map]
  have hc : (fun v : ℚ => w0 * v) ∘ (fun _ : ℚ => (1 : ℚ))
      = fun _ : ℚ => w0 := by
    funext v
    simp
  simp [hc]

theorem checkNotch_scalar_broadcast (fr : NDArr) (w0 : ℚ) (d : DType)
    (h0 : 0 ≤ w0) :
    checkNotchWidths (some fr) (some ⟨d, [w0]⟩)
      = Except.ok (some (scalarMul w0 d (onesLike fr))) := by
  simp only [checkNotchWidths]
  rw [if_neg (by simp [not_lt.mpr h0])]

/-- C7: notch-width configuration is validated before any channel
processing — a negative width or a width list whose length is neither one
nor the number of target frequencies makes `line_filter` return the
configuration error without invoking the channel dispatcher at all, while a
single scalar width is broadcast (`notch_widths[0] * np.ones_like(freqs)`)
across all target frequencies. -/
theorem validation_before_processing (C : MTContext) (L : ℕ)
    (weight : ℕ → ℕ → ℚ) (picks : List ℕ) (x : List (List ℚ))
    (fr w : NDArr) :
    ((∃ v ∈ w.data, v < 0) →
      ∃ e, lineFilterRun C (some fr) (some w) L weight picks x
        = Except.error e)
    ∧ ((∀ v ∈ w.data, 0 ≤ v) → w.data.length ≠ 1 →
        w.data.length ≠ fr.data.length →
        ∃ e, lineFilterRun C (some fr) (some w) L weight picks x
          = Except.error e)
    ∧ (∀ (w0 : ℚ) (d : DType), 0 ≤ w0 →
        checkNotchWidths (some fr) (some ⟨d, [w0]⟩)
          = Except.ok (some (scalarMul w0 d (onesLike fr))))
    ∧ (∀ w0 : ℚ, (scalarMul w0 DType.float64 (onesLike fr)).data
        = List.replicate fr.data.length w0) := by
  refine ⟨?_, ?_, fun w0 d h0 => checkNotch_scalar_broadcast fr w0 d h0,
    fun w0 => scalarMul_onesLike_float_data fr w0⟩
  · intro hneg
    have hany : (w.data.any fun v => decide (v < 0)) = true := by
      rw [List.any_eq_true]
      rcases hneg with ⟨v, hv, hv0⟩
      exact ⟨v, hv, by simpa using hv0⟩
    have hchk : checkNotchWidths (some fr) (some w)
        = Except.error "notch_widths must be >= 0" := by
      simp only [checkNotchWidths]
      rw [if_pos hany]
    simp only [lineFilterRun, hchk]
    exact ⟨_, rfl⟩
  · intro hpos hlen1 hlenf
    have hany : (w.data.any fun v => decide (v < 0)) = false := by
      rw [List.any_eq_false]
      intro v hv
      simpa using not_lt.mpr (hpos v hv)
    have hchk : checkNotchWidths (some fr) (some w)
        = Except.error
          "notch_widths must be None, scalar, or the same length as freqs" := by
      simp only [checkNotchWidths]
      rw [if_neg (by simp [hany])]
      rcases hw : w.data with _ | ⟨a, _ | ⟨b, t⟩⟩
      · rw [hw] at hlenf
        rw [if_pos (by simpa using hlenf)]
      · rw [hw] at hlen1
        exact absurd rfl hlen1
      · rw [hw] at hlenf
        rw [if_pos (by simpa using hlenf)]
    simp only [lineFilterRun, hchk]
    exact ⟨_, rfl⟩

/-- Witness for C7: a negative width, a mismatched width list and a scalar
broadcast, each on concrete arrays. -/
theorem validation_before_processing_witness :
    (∃ e, lineFilterRun wCtx (some ⟨DType.int64, [60]⟩)
        (some ⟨DType.float64, [-1]⟩) 2 (fun _ _ => 1) [0] [[0, 0]]
      = Except.error e)
    ∧ (∃ e, lineFilterRun wCtx (some ⟨DType.int64, [60, 120]⟩)
        (some ⟨DType.float64, [5, 5, 5]⟩) 2 (fun _ _ => 1) [0] [[0, 0]]
      = Except.error e)
    ∧ checkNotchWidths (some ⟨DType.int64, [60, 120]⟩)
        (some ⟨DType.float64, [5]⟩)
      = Except.ok (some (scalarMul 5 DType.float64
          (onesLike ⟨DType.int64, [60, 120]⟩)))
    ∧ (scalarMul 5 DType.float64 (onesLike ⟨DType.int64, [60, 120]⟩)).data
      = List.replicate 2 5 := by
  refine ⟨?_, ?_, ?_, ?_⟩
  · exact (validation_before_processing wCtx 2 (fun _ _ => 1) [0] [[0, 0]]
      ⟨DType.int64, [60]⟩ ⟨DType.float64, [-1]⟩).1
      ⟨-1, by decide, by norm_num⟩
  · exact (validation_before_processing wCtx 2 (fun _ _ => 1) [0] [[0, 0]]
      ⟨DType.int64, [60, 120]⟩ ⟨DType.float64, [5, 5, 5]⟩).2.1
      (by decide) (by decide) (by decide)
  · exact (validation_before_processing wCtx 2 (fun _ _ => 1) [0] [[0, 0]]
      ⟨DType.int64, [60, 120]⟩ ⟨DType.float64, [5]⟩).2.2.1 5 DType.float64
      (by norm_num)
  · exact (validation_before_processing wCtx 2 (fun _ _ => 1) [0] [[0, 0]]
      ⟨DType.int64, [60, 120]⟩ ⟨DType.float64, [5]⟩).2.2.2 5

/-- C10 counterexample: `np.ones_like(freqs)` does inherit the integer
dtype of integer `freqs`, but multiplying it by the float scalar `0.5`
promotes the result to `float64`, so the broadcast width is `0.5`, not the
claimed truncated `0`. -/
theorem scalar_width_truncation_counterexample :
    (onesLike ⟨DType.int64, [60]⟩).dtype = DType.int64
      ∧ scalarMul (1/2 : ℚ) DType.float64 (onesLike ⟨DType.int64, [60]⟩)
          = ⟨DType.float64, [1/2]⟩
      ∧ (scalarMul (1/2 : ℚ) DType.float64
          (onesLike ⟨DType.int64, [60]⟩)).data ≠ [0]
      ∧ checkNotchWidths (some ⟨DType.int64, [60]⟩)
          (some ⟨DType.float64, [1/2]⟩)
        = Except.ok (some ⟨DType.float64, [1/2]⟩) := by
  have hmul : scalarMul (1/2 : ℚ) DType.float64
      (onesLike ⟨DType.int64, [60]⟩) = ⟨DType.float64, [1/2]⟩ := by
    simp [scalarMul, onesLike, DType.castVal, promote_float_left]
  refine ⟨rfl, hmul, by rw [hmul]; norm_num, ?_⟩
  rw [checkNotch_scalar_broadcast _ _ _ (by norm_num), hmul]

/-- C10 (amended): the broadcast widths array is
`notch_widths[0] * np.ones_like(freqs)` and `np.ones_like` inherits the
integer dtype of integer `freqs`, but the multiplication with the `float64`
scalar promotes the result to `float64`, so fractional scalar widths are
preserved exactly: every target receives the width `w0`. -/
theorem scalar_width_promotes_to_float (frdata : List ℚ) (w0 : ℚ)
    (h0 : 0 ≤ w0) :
    (onesLike ⟨DType.int64, frdata⟩).dtype = DType.int64
      ∧ (scalarMul w0 DType.float64
          (onesLike ⟨DType.int64, frdata⟩)).dtype = DType.float64
      ∧ (scalarMul w0 DType.float64 (onesLike ⟨DType.int64, frdata⟩)).data
          = List.replicate frdata.length w0
      ∧ checkNotchWidths (some ⟨DType.int64, frdata⟩)
            (some ⟨DType.float64, [w0]⟩)
          = Except.ok (some (scalarMul w0 DType.float64
              (onesLike ⟨DType.int64, frdata⟩))) := by
  refine ⟨rfl, ?_, scalarMul_onesLike_float_data _ _,
    checkNotch_scalar_broadcast _ _ _ h0⟩
  simp [scalarMul, promote_float_left]

/-- Witness for the amended C10 at `freqs = [60]`, scalar width `1/2`. -/
theorem scalar_width_promotes_to_float_witness :
    (onesLike ⟨DType.int64, [(60 : ℚ)]⟩).dtype = DType.int64
      ∧ (scalarMul (1/2 : ℚ) DType.float64
          (onesLike ⟨DType.int64, [(60 : ℚ)]⟩)).dtype = DType.float64
      ∧ (scalarMul (1/2 : ℚ) DType.float64
          (onesLike ⟨DType.int64, [(60 : ℚ)]⟩)).data
          = List.replicate ([(60 : ℚ)] : List ℚ).length (1/2 : ℚ)
      ∧ checkNotchWidths (some ⟨DType.int64, [(60 : ℚ)]⟩)
            (some ⟨DType.float64, [(1/2 : ℚ)]⟩)
          = Except.ok (some (scalarMul (1/2 : ℚ) DType.float64
              (onesLike ⟨DType.int64, [(60 : ℚ)]⟩))) :=
  scalar_width_promotes_to_float [(60 : ℚ)] (1/2) (by norm_num)

/-! ### Dispatcher shape lemmas -/

theorem colaRun_length (C : MTContext) (lf nw : Option (List ℚ))
    (dflt : List (List ℚ) × ℚ) (weight : ℕ → ℕ → ℚ) (x : List ℚ) :
    (colaRun C lf nw dflt weight x).1.length = x.length := by
  simp [colaRun]

theorem mtRemoveWin_length (C : MTContext) (lf nw : Option (List ℚ))
    (L : ℕ) (weight : ℕ → ℕ → ℚ) (x : List ℚ) :
    (mtRemoveWin C lf nw L weight x).1.length = x.length :=
  colaRun_length C lf nw (getWindowThresh C L) weight x

theorem procPre_length (f : List ℚ → List ℚ) (picks : List ℕ)
    (x : List (List ℚ)) :
    (mtSpectrumProcPre f picks x).length = x.length := by
  simp [mtSpectrumProcPre]

theorem procPre_getD_length (f : List ℚ → List ℚ) (picks : List ℕ)
    (x : List (List ℚ)) (hf : ∀ r, (f r).length = r.length) (i : ℕ) :
    ((mtSpectrumProcPre f picks x).getD i []).length
      = (x.getD i []).length := by
  rcases lt_or_ge i x.length with h | h
  · rw [List.getD_eq_getElem _ _ (by rw [procPre_length]; exact h),
      List.getD_eq_getElem _ _ h]
    unfold mtSpectrumProcPre
    simp only [List.getElem_map, List.getElem_enum]
    split
    · exact hf _
    · rfl
  · rw [List.getD_eq_default _ _ (by rw [procPre_length]; exact h),
      List.getD_eq_default _ _ h]

theorem procPre_rows (f : List ℚ → List ℚ) (picks : List ℕ)
    (x : List (List ℚ)) (c : ℕ) (hf : ∀ r, (f r).length = r.length)
    (hall : ∀ r ∈ x, r.length = c) :
    ∀ r' ∈ mtSpectrumProcPre f picks x, r'.length = c := by
  intro r' hr'
  unfold mtSpectrumProcPre at hr'
  rcases List.mem_map.mp hr' with ⟨p, hp, rfl⟩
  have hmem : p.2 ∈ x := by
    rw [List.enum_eq_zip_range] at hp
    exact (List.of_mem_zip (by exact hp)).2
  split
  · exact (hf p.2).trans (hall _ hmem)
  · exact hall _ hmem

theorem groupN_eq_cons (n : ℕ) (hn : n ≠ 0) (a : α) (t : List α) :
    groupN n (a :: t) = (a :: t).take n :: groupN n ((a :: t).drop n) := by
  rw [groupN]
  rw [dif_neg hn]

theorem groupN_of_mul (n : ℕ) (hn : 0 < n) :
    ∀ (a : ℕ) (l : List α), l.length = a * n →
      (groupN n l).length = a ∧ (∀ g ∈ groupN n l, g.length = n)
        ∧ (∀ g ∈ groupN n l, ∀ v ∈ g, v ∈ l) := by
  intro a
  induction a with
  | zero =>
    intro l hl
    have h0 : l = [] := List.eq_nil_of_length_eq_zero (by simpa using hl)
    subst h0
    refine ⟨by rw [groupN]; rfl, by rw [groupN]; simp, by rw [groupN]; simp⟩
  | succ a ih =>
    intro l hl
    cases l with
    | nil =>
      simp at hl
      omega
    | cons b t =>
      rw [groupN_eq_cons n (by omega)]
      obtain ⟨an, han⟩ : ∃ an, a * n = an := ⟨_, rfl⟩
      have hl' : (b :: t).length = an + n := by
        rw [hl, ← han]
        ring
      have hdl : ((b :: t).drop n).length = a * n := by
        simp only [List.length_drop]
        rw [han]
        omega
      obtain ⟨ih1, ih2, ih3⟩ := ih _ hdl
      refine ⟨by simp [ih1], ?_, ?_⟩
      · intro g hg
        rcases List.mem_cons.mp hg with rfl | hg
        · rw [List.length_take]
          omega
        · exact ih2 g hg
      · intro g hg v hv
        rcases List.mem_cons.mp hg with rfl | hg
        · exact List.take_subset _ _ hv
        · exact List.drop_subset _ _ (ih3 g hg v hv)

theorem length_flatten_const (x3 : List (List α)) (c : ℕ)
    (h : ∀ ep ∈ x3, ep.length = c) :
    x3.flatten.length = x3.length * c := by
  induction x3 with
  | nil => simp
  | cons ep t ih =>
    simp only [List.flatten_cons, List.length_append, List.length_cons]
    rw [h ep (by simp), ih (fun e he => h e (by simp [he]))]
    ring

/-! ### Claim C6 -/

/-- C6: the `PreProcess` dispatcher leaves every non-picked row unchanged
in the output buffer, but the `ieeg` dispatcher applies the channel process
to every row regardless of the pick list (the expanded picks are computed
and then dropped before `proc_array`), so a non-picked row comes back as
its processed version rather than untouched. -/
theorem unpicked_rows_divergence (f : List ℚ → List ℚ) (picks : List ℕ)
    (x : List (List ℚ)) (i : ℕ) (hi : i < x.length) (hnp : i ∉ picks) :
    (mtSpectrumProcPre f picks x).getD i [] = x.getD i []
      ∧ (mtSpectrumProcIeeg f picks x).getD i [] = f (x.getD i []) := by
  constructor
  · rw [List.getD_eq_getElem _ _ (by rw [procPre_length]; exact hi),
      List.getD_eq_getElem _ _ hi]
    unfold mtSpectrumProcPre
    simp only [List.getElem_map, List.getElem_enum]
    rw [if_neg hnp]
  · rw [List.getD_eq_getElem _ _
        (by simp only [mtSpectrumProcIeeg, procArray, List.length_map]
            exact hi),
      List.getD_eq_getElem _ _ hi]
    unfold mtSpectrumProcIeeg procArray
    simp only [List.getElem_map]

/-- Witness for C6: on the buffer `[[0,0],[0,0]]` with picks `[0]` and a
context in which every bin is significant, the `ieeg` dispatcher rewrites
the non-picked row 1 to `[-2,-2]` while the `PreProcess` dispatcher leaves
it at `[0,0]`. -/
theorem unpicked_rows_divergence_witness :
    (mtSpectrumProcPre
        (fun r => (mtRemoveWin wCtxZ none none 2 (fun _ _ => 1) r).1)
        [0] [[0, 0], [0, 0]]).getD 1 [] = [0, 0]
      ∧ (mtRemoveWin wCtxZ none none 2 (fun _ _ => 1) [0, 0]).1 = [-2, -2]
      ∧ (mtSpectrumProcIeeg
          (fun r => (mtRemoveWin wCtxZ none none 2 (fun _ _ => 1) r).1)
          [0] [[0, 0], [0, 0]]).getD 1 [] = [-2, -2]
      ∧ (mtSpectrumProcIeeg
          (fun r => (mtRemoveWin wCtxZ none none 2 (fun _ _ => 1) r).1)
          [0] [[0, 0], [0, 0]]).getD 1 [] ≠ [0, 0] := by
  have hgen := unpicked_rows_divergence
    (fun r => (mtRemoveWin wCtxZ none none 2 (fun _ _ => 1) r).1)
    [0] [[0, 0], [0, 0]] 1 (by decide) (by decide)
  have heval : (mtRemoveWin wCtxZ none none 2 (fun _ _ => 1) [0, 0]).1
      = [-2, -2] := by
    norm_num [mtRemoveWin, colaRun, colaChunk, colaHop, colaOverlap,
      numWindows, mtRemove, chunkWindowThresh, getWindowThresh, wfLen,
      wCtxZ, wCtx, wBank, removedIndices, sigIndices, nBins, fitAt,
      specFreqs, cTwo, List.enum, List.range_succ]
  have hieeg : (mtSpectrumProcIeeg
      (fun r => (mtRemoveWin wCtxZ none none 2 (fun _ _ => 1) r).1)
      [0] [[0, 0], [0, 0]]).getD 1 [] = [-2, -2] := by
    rw [hgen.2]
    exact heval
  have hneq : ([-2, -2] : List ℚ) ≠ [0, 0] := by
    intro h
    simp at h
  exact ⟨hgen.1, heval, hieeg, by rw [hieeg]; exact hneq⟩

/-! ### Claim C9 -/

theorem exists_error_exceptMapList {α β : Type} (f : α → Except String β) :
    ∀ l : List α, (∃ a ∈ l, ∃ e0, f a = Except.error e0) →
      ∃ e, exceptMapList f l = Except.error e := by
  intro l
  induction l with
  | nil => simp
  | cons b t ih =>
    intro h
    unfold exceptMapList
    cases hb : f b with
    | error e => exact ⟨e, rfl⟩
    | ok y =>
      rcases h with ⟨a, ha, e0, hae⟩
      rcases List.mem_cons.mp ha with rfl | hat
      · rw [hb] at hae
        cases hae
      · obtain ⟨e, he⟩ := ih ⟨a, hat, e0, hae⟩
        rw [he]
        exact ⟨e, rfl⟩

theorem colaRunIeeg_error (C : MTContext) (lf nw : Option (List ℚ))
    (dflt : List (List ℚ) × ℚ) (weight : ℕ → ℕ → ℚ) (x : List ℚ)
    (h : ∃ k, k < numWindows x.length (wfLen dflt.1)
          (colaHop (wfLen dflt.1))
        ∧ (colaChunk x (wfLen dflt.1)
            (k * colaHop (wfLen dflt.1))).length ≠ wfLen dflt.1) :
    ∃ e, colaRunIeeg C lf nw dflt weight x = Except.error e := by
  obtain ⟨k, hk, hlen⟩ := h
  have herr : ∃ e0, mtRemoveIeeg C lf nw dflt
      (colaChunk x (wfLen dflt.1) (k * colaHop (wfLen dflt.1)))
        = Except.error e0 := by
    unfold mtRemoveIeeg
    rw [if_pos hlen]
    exact ⟨_, rfl⟩
  obtain ⟨e, he⟩ := exists_error_exceptMapList
    (fun k => mtRemoveIeeg C lf nw dflt
      (colaChunk x (wfLen dflt.1) (k * colaHop (wfLen dflt.1))))
    (List.range (numWindows x.length (wfLen dflt.1)
      (colaHop (wfLen dflt.1))))
    ⟨k, List.mem_range.mpr hk, herr⟩
  refine ⟨e, ?_⟩
  unfold colaRunIeeg
  dsimp only
  rw [he]

/-- C9 (code_bug evidence): in the `PreProcess` embedding the filtered
buffer has exactly the shape of the input on every axis — for 2-D input the
number of rows and every row length are preserved, for 3-D input the epoch
count, the per-epoch channel count and every row length are preserved — and
for every channel the overlap-add write cursor ends exactly at the channel
length; but the `ieeg` channel run raises before producing any output
whenever some COLA window of the channel is clipped short (its
recompute path crashes, see C8), so the claim's universal shape guarantee
fails for the `ieeg` implementation. -/
theorem filtered_shape_invariant (C : MTContext) (lf nw : Option (List ℚ))
    (L : ℕ) (weight : ℕ → ℕ → ℚ) (picks : List ℕ)
    (x2 : List (List ℚ)) (x3 : List (List (List ℚ))) (nCh nT : ℕ)
    (hep : ∀ ep ∈ x3, ep.length = nCh) (hn : 0 < nCh)
    (hrow : ∀ ep ∈ x3, ∀ r ∈ ep, r.length = nT) :
    (mtSpectrumProcPre (fun row => (mtRemoveWin C lf nw L weight row).1)
        picks x2).length = x2.length
    ∧ (∀ i : ℕ,
        ((mtSpectrumProcPre (fun row => (mtRemoveWin C lf nw L weight row).1)
          picks x2).getD i []).length = (x2.getD i []).length)
    ∧ (mtSpectrumProc3 (fun row => (mtRemoveWin C lf nw L weight row).1)
        picks nCh x3).length = x3.length
    ∧ (∀ ep ∈ mtSpectrumProc3
        (fun row => (mtRemoveWin C lf nw L weight row).1) picks nCh x3,
        ep.length = nCh)
    ∧ (∀ ep ∈ mtSpectrumProc3
        (fun row => (mtRemoveWin C lf nw L weight row).1) picks nCh x3,
        ∀ r ∈ ep, r.length = nT)
    ∧ (∀ ch : List ℚ, colaCursor ch.length
        (wfLen (getWindowThresh C L).1)
        (colaHop (wfLen (getWindowThresh C L).1)) = ch.length)
    ∧ (∀ x : List ℚ, (∃ k, k < numWindows x.length
          (wfLen (getWindowThresh C L).1)
          (colaHop (wfLen (getWindowThresh C L).1))
        ∧ (colaChunk x (wfLen (getWindowThresh C L).1)
            (k * colaHop (wfLen (getWindowThresh C L).1))).length
          ≠ wfLen (getWindowThresh C L).1) →
      ∃ e, colaRunIeeg C lf nw (getWindowThresh C L) weight x
        = Except.error e) := by
  have hf : ∀ r, ((fun row => (mtRemoveWin C lf nw L weight row).1) r).length
      = r.length := fun r => mtRemoveWin_length C lf nw L weight r
  have hflat : x3.flatten.length = x3.length * nCh :=
    length_flatten_const x3 nCh hep
  have hylen : (mtSpectrumProcPre
      (fun row => (mtRemoveWin C lf nw L weight row).1)
      (expandPicks3 picks x3.length nCh) x3.flatten).length
        = x3.length * nCh := by
    rw [procPre_length]
    exact hflat
  obtain ⟨hg1, hg2, hg3⟩ := groupN_of_mul nCh hn x3.length _ hylen
  refine ⟨procPre_length _ _ _, procPre_getD_length _ _ _ hf, hg1, hg2,
    ?_, ?_, fun x hx => colaRunIeeg_error C lf nw (getWindowThresh C L)
      weight x hx⟩
  · intro ep hep' r hr
    have hrmem := hg3 ep hep' r hr
    have hallrows : ∀ r' ∈ x3.flatten, r'.length = nT := by
      intro r' hr'
      rcases List.mem_flatten.mp hr' with ⟨e, he, hre⟩
      exact hrow e he r' hre
    exact procPre_rows _ _ _ nT hf hallrows r hrmem
  · intro ch
    exact cola_cursor_eq ch.length _ _

/-- Witness for C9 on a 1-epoch, 1-channel, 2-sample buffer with filter
length 4, plus the concrete `ieeg` crash on a 5-sample channel whose final
COLA window is clipped to 3 samples. -/
theorem filtered_shape_invariant_witness :
    (mtSpectrumProcPre
        (fun row => (mtRemoveWin wCtxZ none none 4 (fun _ _ => 1) row).1)
        [0] [[0, 0]]).length = ([[0, 0]] : List (List ℚ)).length
    ∧ (∀ i : ℕ,
        ((mtSpectrumProcPre
          (fun row => (mtRemoveWin wCtxZ none none 4 (fun _ _ => 1) row).1)
          [0] [[0, 0]]).getD i []).length
            = (([[0, 0]] : List (List ℚ)).getD i []).length)
    ∧ (mtSpectrumProc3
        (fun row => (mtRemoveWin wCtxZ none none 4 (fun _ _ => 1) row).1)
        [0] 1 [[[0, 0]]]).length = ([[[0, 0]]] : List (List (List ℚ))).length
    ∧ (∀ ep ∈ mtSpectrumProc3
        (fun row => (mtRemoveWin wCtxZ none none 4 (fun _ _ => 1) row).1)
        [0] 1 [[[0, 0]]], ep.length = 1)
    ∧ (∀ ep ∈ mtSpectrumProc3
        (fun row => (mtRemoveWin wCtxZ none none 4 (fun _ _ => 1) row).1)
        [0] 1 [[[0, 0]]], ∀ r ∈ ep, r.length = 2)
    ∧ (∀ ch : List ℚ, colaCursor ch.length
        (wfLen (getWindowThresh wCtxZ 4).1)
        (colaHop (wfLen (getWindowThresh wCtxZ 4).1)) = ch.length)
    ∧ (∀ x : List ℚ, (∃ k, k < numWindows x.length
          (wfLen (getWindowThresh wCtxZ 4).1)
          (colaHop (wfLen (getWindowThresh wCtxZ 4).1))
        ∧ (colaChunk x (wfLen (getWindowThresh wCtxZ 4).1)
            (k * colaHop (wfLen (getWindowThresh wCtxZ 4).1))).length
          ≠ wfLen (getWindowThresh wCtxZ 4).1) →
      ∃ e, colaRunIeeg wCtxZ none none (getWindowThresh wCtxZ 4)
        (fun _ _ => 1) x = Except.error e)
    ∧ (∃ e, colaRunIeeg wCtxZ none none (getWindowThresh wCtxZ 4)
        (fun _ _ => 1) [0, 0, 0, 0, 0] = Except.error e) := by
  have h := filtered_shape_invariant wCtxZ none none 4 (fun _ _ => 1) [0]
    [[0, 0]] [[[0, 0]]] 1 2 (by decide) (by decide) (by decide)
  exact ⟨h.1, h.2.1, h.2.2.1, h.2.2.2.1, h.2.2.2.2.1, h.2.2.2.2.2.1,
    h.2.2.2.2.2.2,
    h.2.2.2.2.2.2 [0, 0, 0, 0, 0] ⟨1, by decide, by decide⟩⟩
